import Mathlib

/-!
Shallow embedding of `src/matverse/omega_gateway.py` (MatVerse Omega Gateway).

Python floats are modelled by `PyFloat`: either a finite real value (as a
rational) or one of the non-finite values `nan`, `inf`, `ninf`.  Finite float
arithmetic is modelled by exact rational arithmetic.  Quantities that the
source keeps finite by construction (clamped values, weights inside the
validator, history entries) are carried as plain rationals.
-/

namespace MatVerse

/-- A Python float: a finite value or one of NaN, +inf, -inf. -/
inductive PyFloat where
  | fin (val : ℚ)
  | nan
  | inf
  | ninf
deriving DecidableEq, Repr

/-- `math.isfinite` on the float model. -/
def PyFloat.isfinite : PyFloat → Bool
  | .fin _ => true
  | _ => false

/-- Clamp of an already-finite value: `max(min_value, min(max_value, value))`. -/
def clampQ (value min_value max_value : ℚ) : ℚ :=
  max min_value (min max_value value)

/-- `_clamp(value, min_value, max_value)` from the source: non-finite input
collapses to `min_value`, finite input is bounded into `[min_value, max_value]`. -/
def pyClamp (value : PyFloat) (min_value max_value : ℚ) : ℚ :=
  match value with
  | .fin v => clampQ v min_value max_value
  | _ => min_value

/-- `OmegaWeights` dataclass: weighting factors for the Omega score.
Weights are modelled as finite reals (rationals). -/
structure OmegaWeights where
  psi : ℚ
  theta : ℚ
  cvar : ℚ
deriving DecidableEq, Repr

/-- The default weights `OmegaWeights(psi=0.45, theta=0.35, cvar=0.20)`. -/
def OmegaWeights.default : OmegaWeights :=
  ⟨45/100, 35/100, 20/100⟩

/-- `OmegaWeights.normalized`: divide by `max(psi + theta + cvar, 1e-12)`. -/
def OmegaWeights.normalized (w : OmegaWeights) : OmegaWeights :=
  let total := max (w.psi + w.theta + w.cvar) (1/1000000000000)
  ⟨w.psi / total, w.theta / total, w.cvar / total⟩

/-- `compute_omega(psi, theta, cvar, weights)`: clamp the three sub-signals
(inverting `cvar`), take the weighted sum with normalized weights, and clamp
the result to `[0, 1]`.  The final `_clamp` in the source sees a finite float,
so it is the finite clamp here. -/
def compute_omega (psi theta cvar : PyFloat) (weights : Option OmegaWeights) : ℚ :=
  let w := (weights.getD OmegaWeights.default).normalized
  let safe_psi := pyClamp psi 0 1
  let safe_theta := pyClamp theta 0 1
  let safe_cvar := 1 - pyClamp cvar 0 1
  clampQ (safe_psi * w.psi + safe_theta * w.theta + safe_cvar * w.cvar) 0 1

/-- The finite values of a sample list, in order:
`[value for value in samples if isfinite(value)]`. -/
def finiteVals (samples : List PyFloat) : List ℚ :=
  samples.filterMap fun s =>
    match s with
    | .fin v => some v
    | _ => none

/-- `sorted(clean, reverse=True)`: sort a list of finite values descending. -/
def sortDesc (l : List ℚ) : List ℚ :=
  l.insertionSort (fun a b => b ≤ a)

/-- `compute_qcvar(samples, alpha)`: drop non-finite samples; on an empty
remainder return `0.0`; otherwise average the first
`max(1, int(n * (1 - clamped_alpha)) + 1)` of the descending-sorted samples.
Python `int()` truncates toward zero; its argument here is nonnegative, so it
is the floor. -/
def compute_qcvar (samples : List PyFloat) (alpha : PyFloat) : ℚ :=
  let clamped_alpha := pyClamp alpha (1/1000000) (1 - 1/1000000)
  let clean := finiteVals samples
  if clean.isEmpty then 0
  else
    let sorted_values := sortDesc clean
    let tail_count := max 1 ((⌊(sorted_values.length : ℚ) * (1 - clamped_alpha)⌋).toNat + 1)
    let tail_slice := sorted_values.take tail_count
    tail_slice.sum / (tail_slice.length : ℚ)

/-- Result mapping of `validate_governance_barrier`. -/
structure GovernanceResult where
  omega_ok : Bool
  qcvar_ok : Bool
  production_ready : Bool
  omega_threshold : ℚ
  qcvar_limit : ℚ
deriving DecidableEq, Repr

/-- `validate_governance_barrier(omega_score, qcvar, omega_threshold, qcvar_limit)`:
clamp both thresholds into `[0,1]`, compare the clamped score and risk against
them, and AND the two verdicts. -/
def validate_governance_barrier (omega_score qcvar omega_threshold qcvar_limit : PyFloat) :
    GovernanceResult :=
  let safe_threshold := pyClamp omega_threshold 0 1
  let safe_qcvar_limit := pyClamp qcvar_limit 0 1
  let omega_ok := decide (pyClamp omega_score 0 1 ≥ safe_threshold)
  let qcvar_ok := decide (pyClamp qcvar 0 1 ≤ safe_qcvar_limit)
  { omega_ok := omega_ok
    qcvar_ok := qcvar_ok
    production_ready := omega_ok && qcvar_ok
    omega_threshold := safe_threshold
    qcvar_limit := safe_qcvar_limit }

/-- Result mapping of `antifragile_metric`. -/
structure AntifragileResult where
  improvement : ℚ
  is_antifragile : Bool
  antifragile_coefficient : ℚ
deriving DecidableEq, Repr

/-- `antifragile_metric(before, after, stress_applied)`. -/
def antifragile_metric (before after : PyFloat) (stress_applied : Bool) : AntifragileResult :=
  let safe_before := pyClamp before 0 1
  let safe_after := pyClamp after 0 1
  let improvement := safe_after - safe_before
  let coefficient := if stress_applied then improvement else 0
  { improvement := improvement
    is_antifragile := stress_applied && decide (improvement > 0)
    antifragile_coefficient := coefficient }

/-- One history record `{psi, theta, cvar, omega}` stored by the validator. -/
structure EvalRecord where
  psi : ℚ
  theta : ℚ
  cvar : ℚ
  omega : ℚ
deriving DecidableEq, Repr

/-- State of `OmegaValidator`: constructor-fixed configuration plus the three
history sequences. -/
structure OmegaValidator where
  omega_threshold : ℚ
  qcvar_limit : ℚ
  qcvar_alpha : ℚ
  max_history : ℕ
  min_samples : ℕ
  history : List EvalRecord
  omega_history : List ℚ
  cvar_history : List ℚ
deriving DecidableEq, Repr

/-- `OmegaValidator.__init__`: clamp the thresholds and alpha, coerce
`max_history` and `min_samples` to at-least-1 integers, start with empty
histories. -/
def OmegaValidator.init (omega_threshold qcvar_limit qcvar_alpha : PyFloat)
    (max_history min_samples : ℤ) : OmegaValidator :=
  { omega_threshold := pyClamp omega_threshold 0 1
    qcvar_limit := pyClamp qcvar_limit 0 1
    qcvar_alpha := pyClamp qcvar_alpha (1/1000000) (1 - 1/1000000)
    max_history := (max 1 max_history).toNat
    min_samples := (max 1 min_samples).toNat
    history := []
    omega_history := []
    cvar_history := [] }

/-- The front-eviction loop `while len(l) > max: l.pop(0)`, as a drop of the
excess from the front. -/
def trimFront (l : List α) (bound : ℕ) : List α :=
  l.drop (l.length - bound)

/-- `OmegaValidator._trim_history`: trim all three sequences to `max_history`,
evicting from the front. -/
def OmegaValidator.trim_history (v : OmegaValidator) : OmegaValidator :=
  { v with
    history := trimFront v.history v.max_history
    omega_history := trimFront v.omega_history v.max_history
    cvar_history := trimFront v.cvar_history v.max_history }

/-- `OmegaValidator._compute_qcvar_history`: QCVaR over the stored (finite)
cvar history with the validator's alpha. -/
def OmegaValidator.qcvar_history (v : OmegaValidator) : ℚ :=
  compute_qcvar (v.cvar_history.map .fin) (.fin v.qcvar_alpha)

/-- The record appended by one `validate_system` call. -/
def evalRecordOf (psi theta cvar : PyFloat) (weights : Option OmegaWeights) : EvalRecord :=
  { psi := pyClamp psi 0 1
    theta := pyClamp theta 0 1
    cvar := pyClamp cvar 0 1
    omega := compute_omega psi theta cvar weights }

/-- Result mapping of `OmegaValidator.validate_system`. -/
structure ValidateResult where
  omega : ℚ
  qcvar : ℚ
  production_ready : Bool
  history_size : ℕ
deriving DecidableEq, Repr

/-- `OmegaValidator.validate_system`: compute omega, append the clamped record
to all three histories, trim, recompute QCVaR over the cvar history, and gate
through the governance barrier.  Returns the result together with the new
state. -/
def OmegaValidator.validate_system (v : OmegaValidator)
    (psi theta cvar : PyFloat) (weights : Option OmegaWeights) :
    ValidateResult × OmegaValidator :=
  let omega := compute_omega psi theta cvar weights
  let safe_cvar := pyClamp cvar 0 1
  let record := evalRecordOf psi theta cvar weights
  let v' := OmegaValidator.trim_history
    { v with
      history := v.history ++ [record]
      omega_history := v.omega_history ++ [omega]
      cvar_history := v.cvar_history ++ [safe_cvar] }
  let qcvar_value := v'.qcvar_history
  let readiness := validate_governance_barrier (.fin omega) (.fin qcvar_value)
    (.fin v.omega_threshold) (.fin v.qcvar_limit)
  (⟨omega, qcvar_value, readiness.production_ready, v'.history.length⟩, v')

/-- Result mapping of `OmegaValidator.get_system_health`. -/
structure HealthResult where
  latest_omega : ℚ
  qcvar : ℚ
  production_ready : Bool
  sample_count : ℕ
deriving DecidableEq, Repr

/-- `OmegaValidator.get_system_health`: QCVaR over the current cvar history
(`0.0` when empty), the most recently recorded omega (`0.0` when empty), the
barrier verdict on the pair, forced to `false` below `min_samples`. -/
def OmegaValidator.get_system_health (v : OmegaValidator) : HealthResult :=
  let qcvar_value := if v.cvar_history.isEmpty then 0 else v.qcvar_history
  let latest_omega := v.omega_history.getLast?.getD 0
  let ready := (validate_governance_barrier (.fin latest_omega) (.fin qcvar_value)
    (.fin v.omega_threshold) (.fin v.qcvar_limit)).production_ready
  { latest_omega := latest_omega
    qcvar := qcvar_value
    production_ready := if v.history.length ≥ v.min_samples then ready else false
    sample_count := v.history.length }

/-- Result mapping of `OmegaValidator.get_validation_summary`.  The Python
`latest` field is the last record, or an empty mapping when the history is
empty; here it is an `Option`. -/
structure SummaryResult where
  latest : Option EvalRecord
  history : List EvalRecord
  qcvar : ℚ
  omega_threshold : ℚ
  qcvar_limit : ℚ
deriving DecidableEq, Repr

/-- `OmegaValidator.get_validation_summary`.  The source copies the history
before returning it; copying is the identity in the value model. -/
def OmegaValidator.get_validation_summary (v : OmegaValidator) : SummaryResult :=
  { latest := v.history.getLast?
    history := v.history
    qcvar := if v.cvar_history.isEmpty then 0 else v.qcvar_history
    omega_threshold := v.omega_threshold
    qcvar_limit := v.qcvar_limit }

/-- `OmegaValidator.reset`: clear the three histories, keep the configuration. -/
def OmegaValidator.reset (v : OmegaValidator) : OmegaValidator :=
  { v with history := [], omega_history := [], cvar_history := [] }

/-- States reachable from a freshly constructed validator by any sequence of
`validate_system` and `reset` calls. -/
inductive Reachable : OmegaValidator → Prop where
  | init (omega_threshold qcvar_limit qcvar_alpha : PyFloat)
      (max_history min_samples : ℤ) :
      Reachable (OmegaValidator.init omega_threshold qcvar_limit qcvar_alpha
        max_history min_samples)
  | validate {v : OmegaValidator} (hv : Reachable v)
      (psi theta cvar : PyFloat) (weights : Option OmegaWeights) :
      Reachable (v.validate_system psi theta cvar weights).2
  | reset {v : OmegaValidator} (hv : Reachable v) : Reachable v.reset

/-! ### Helper lemmas -/

theorem clampQ_mem {x lo hi : ℚ} (h : lo ≤ hi) : lo ≤ clampQ x lo hi ∧ clampQ x lo hi ≤ hi :=
  ⟨le_max_left _ _, max_le h (min_le_left _ _)⟩

theorem pyClamp_mem (v : PyFloat) (lo hi : ℚ) (h : lo ≤ hi) :
    lo ≤ pyClamp v lo hi ∧ pyClamp v lo hi ≤ hi := by
  cases v with
  | fin q => exact clampQ_mem h
  | nan => exact ⟨le_refl _, h⟩
  | inf => exact ⟨le_refl _, h⟩
  | ninf => exact ⟨le_refl _, h⟩

/-! ### C4: `compute_omega` is bounded into the unit interval -/

/-- C4: for all real inputs `psi`, `theta`, `cvar` (non-finite values included)
and any optional weights, `compute_omega` returns a value in `[0, 1]`. -/
theorem compute_omega_mem_unit (psi theta cvar : PyFloat) (weights : Option OmegaWeights) :
    0 ≤ compute_omega psi theta cvar weights ∧ compute_omega psi theta cvar weights ≤ 1 := by
  unfold compute_omega
  exact clampQ_mem (by norm_num)

/-! ### C5: the governance barrier compares clamped values and ANDs verdicts -/

/-- C5: `validate_governance_barrier` reports `omega_ok` iff the clamped score
reaches the clamped threshold, `qcvar_ok` iff the clamped risk is within the
clamped limit, and `production_ready` as the conjunction of the two; the
returned thresholds are the clamped ones.  The function is total by
construction. -/
theorem validate_governance_barrier_spec (omega_score qcvar omega_threshold qcvar_limit : PyFloat) :
    ((validate_governance_barrier omega_score qcvar omega_threshold qcvar_limit).omega_ok = true ↔
      pyClamp omega_threshold 0 1 ≤ pyClamp omega_score 0 1) ∧
    ((validate_governance_barrier omega_score qcvar omega_threshold qcvar_limit).qcvar_ok = true ↔
      pyClamp qcvar 0 1 ≤ pyClamp qcvar_limit 0 1) ∧
    (validate_governance_barrier omega_score qcvar omega_threshold qcvar_limit).production_ready =
      ((validate_governance_barrier omega_score qcvar omega_threshold qcvar_limit).omega_ok &&
        (validate_governance_barrier omega_score qcvar omega_threshold qcvar_limit).qcvar_ok) ∧
    (validate_governance_barrier omega_score qcvar omega_threshold qcvar_limit).omega_threshold =
      pyClamp omega_threshold 0 1 ∧
    (validate_governance_barrier omega_score qcvar omega_threshold qcvar_limit).qcvar_limit =
      pyClamp qcvar_limit 0 1 := by
  refine ⟨?_, ?_, rfl, rfl, rfl⟩ <;> simp [validate_governance_barrier, ge_iff_le]

/-! ### C9: the antifragility metric -/

/-- C9: `antifragile_metric` reports `improvement` as the difference of the
clamped measurements (hence in `[-1, 1]`), `is_antifragile` exactly when stress
was applied and the improvement is strictly positive, and a coefficient equal
to the improvement under stress and `0.0` otherwise. -/
theorem antifragile_metric_spec (before aft : PyFloat) (stress_applied : Bool) :
    (antifragile_metric before aft stress_applied).improvement =
      pyClamp aft 0 1 - pyClamp before 0 1 ∧
    -1 ≤ (antifragile_metric before aft stress_applied).improvement ∧
    (antifragile_metric before aft stress_applied).improvement ≤ 1 ∧
    ((antifragile_metric before aft stress_applied).is_antifragile = true ↔
      stress_applied = true ∧ 0 < (antifragile_metric before aft stress_applied).improvement) ∧
    (antifragile_metric before aft stress_applied).antifragile_coefficient =
      (if stress_applied then (antifragile_metric before aft stress_applied).improvement
       else 0) := by
  have hb := pyClamp_mem before 0 1 (by norm_num)
  have ha := pyClamp_mem aft 0 1 (by norm_num)
  refine ⟨rfl, ?_, ?_, ?_, rfl⟩
  · simp only [antifragile_metric]
    linarith [hb.2, ha.1]
  · simp only [antifragile_metric]
    linarith [hb.1, ha.2]
  · simp [antifragile_metric]

/-! ### C7: normalization of weights -/

/-- C7 counterexample: the weights `(1e-13, 0, 0)` are nonnegative and not all
zero, yet the normalized components sum to `1/10`, far outside any floating
tolerance of `1`: the `max(total, 1e-12)` guard divides by `1e-12` instead of
the true sum. -/
theorem omegaWeights_normalized_sum_cex :
    (0 : ℚ) ≤ 1/10000000000000 ∧
    ¬ ((1/10000000000000 : ℚ) = 0 ∧ (0 : ℚ) = 0 ∧ (0 : ℚ) = 0) ∧
    (OmegaWeights.mk (1/10000000000000) 0 0).normalized.psi +
      (OmegaWeights.mk (1/10000000000000) 0 0).normalized.theta +
      (OmegaWeights.mk (1/10000000000000) 0 0).normalized.cvar = 1/10 ∧
    ¬ |(1/10 : ℚ) - 1| ≤ 1/100 := by
  refine ⟨by norm_num, by norm_num, ?_, by norm_num [abs]⟩
  norm_num [OmegaWeights.normalized]

/-- C7 amended: for nonnegative weights whose raw sum is at least the `1e-12`
guard, the components of `normalized()` sum to exactly `1`. -/
theorem omegaWeights_normalized_sum (a b c : ℚ)
    (ha : 0 ≤ a) (hb : 0 ≤ b) (hc : 0 ≤ c) (hsum : 1/1000000000000 ≤ a + b + c) :
    (OmegaWeights.mk a b c).normalized.psi + (OmegaWeights.mk a b c).normalized.theta +
      (OmegaWeights.mk a b c).normalized.cvar = 1 := by
  have htot : max (a + b + c) (1/1000000000000) = a + b + c := max_eq_left hsum
  have hpos : (0 : ℚ) < a + b + c := lt_of_lt_of_le (by norm_num) hsum
  simp only [OmegaWeights.normalized, htot]
  rw [div_add_div_same, div_add_div_same, div_self (ne_of_gt hpos)]

theorem omegaWeights_normalized_sum_witness :
    (0 : ℚ) ≤ 1 ∧ (0 : ℚ) ≤ 2 ∧ (0 : ℚ) ≤ 3 ∧ (1/1000000000000 : ℚ) ≤ 1 + 2 + 3 ∧
    (OmegaWeights.mk 1 2 3).normalized.psi + (OmegaWeights.mk 1 2 3).normalized.theta +
      (OmegaWeights.mk 1 2 3).normalized.cvar = 1 :=
  ⟨by norm_num, by norm_num, by norm_num, by norm_num,
    omegaWeights_normalized_sum 1 2 3 (by norm_num) (by norm_num) (by norm_num) (by norm_num)⟩

/-! ### C8: sign of `compute_qcvar` -/

theorem mem_finiteVals {samples : List PyFloat} {x : ℚ} :
    x ∈ finiteVals samples ↔ PyFloat.fin x ∈ samples := by
  simp only [finiteVals, List.mem_filterMap]
  constructor
  · rintro ⟨s, hs, hx⟩
    cases s <;> simp_all
  · intro h
    exact ⟨.fin x, h, rfl⟩

theorem mem_of_mem_take_sortDesc {l : List ℚ} {k : ℕ} {x : ℚ}
    (h : x ∈ (sortDesc l).take k) : x ∈ l := by
  have h1 : x ∈ sortDesc l := List.take_subset k _ h
  simpa [sortDesc] using (List.mem_insertionSort _).mp h1

/-- C8 counterexample: on the single finite sample `-1.0` the estimator
returns `-1.0`, which is negative: the asserted contract `value ≥ 0` fails for
negative samples. -/
theorem compute_qcvar_nonneg_cex :
    compute_qcvar [PyFloat.fin (-1)] (PyFloat.fin (95/100)) = -1 ∧
    ¬ (0 : ℚ) ≤ compute_qcvar [PyFloat.fin (-1)] (PyFloat.fin (95/100)) := by
  refine ⟨?_, ?_⟩ <;>
  · norm_num [compute_qcvar, finiteVals, sortDesc, List.insertionSort, List.orderedInsert,
      pyClamp, clampQ]
    simp

/-- C8 amended: when every finite sample is nonnegative (as is the case for
every list the validator feeds it), `compute_qcvar` returns a nonnegative
value. -/
theorem compute_qcvar_nonneg (samples : List PyFloat) (alpha : PyFloat)
    (h : ∀ q : ℚ, PyFloat.fin q ∈ samples → 0 ≤ q) :
    0 ≤ compute_qcvar samples alpha := by
  unfold compute_qcvar
  dsimp only
  split
  · exact le_refl 0
  · refine div_nonneg (List.sum_nonneg ?_) (by positivity)
    intro x hx
    exact h x (mem_finiteVals.mp (mem_of_mem_take_sortDesc hx))

theorem compute_qcvar_nonneg_witness :
    (∀ q : ℚ, PyFloat.fin q ∈ [PyFloat.fin (1/2), PyFloat.nan] → 0 ≤ q) ∧
    0 ≤ compute_qcvar [PyFloat.fin (1/2), PyFloat.nan] (PyFloat.fin (95/100)) := by
  have hq : ∀ q : ℚ, PyFloat.fin q ∈ [PyFloat.fin (1/2), PyFloat.nan] → 0 ≤ q := by
    intro q hq
    simp only [List.mem_cons, List.not_mem_nil, or_false] at hq
    rcases hq with hq | hq
    · cases hq
      norm_num
    · cases hq
  exact ⟨hq, compute_qcvar_nonneg [PyFloat.fin (1/2), PyFloat.nan] (PyFloat.fin (95/100)) hq⟩

/-! ### C3: `compute_qcvar` is the mean of the top-k finite samples -/

theorem sortDesc_length (l : List ℚ) : (sortDesc l).length = l.length :=
  List.length_insertionSort _ _

/-- C3: with at least one finite sample, `compute_qcvar` equals the arithmetic
mean of the top `k = max(1, floor(n(1-alpha'))+1)` values of the finite
samples sorted descending, with `n` the number of finite samples and `alpha'`
the alpha clamped into `[1e-6, 1-1e-6]`; with no finite samples (the empty
list and `[nan, inf]` included) it returns `0.0`. -/
theorem compute_qcvar_spec (samples : List PyFloat) (alpha : PyFloat) :
    (finiteVals samples = [] → compute_qcvar samples alpha = 0) ∧
    (finiteVals samples ≠ [] →
      compute_qcvar samples alpha =
        ((sortDesc (finiteVals samples)).take
            (max 1 ((⌊((finiteVals samples).length : ℚ) *
              (1 - pyClamp alpha (1/1000000) (1 - 1/1000000))⌋).toNat + 1))).sum /
          ((max 1 ((⌊((finiteVals samples).length : ℚ) *
              (1 - pyClamp alpha (1/1000000) (1 - 1/1000000))⌋).toNat + 1) : ℕ) : ℚ)) ∧
    compute_qcvar [] alpha = 0 ∧
    compute_qcvar [PyFloat.nan, PyFloat.inf] alpha = 0 := by
  refine ⟨?_, ?_, rfl, rfl⟩
  · intro h
    unfold compute_qcvar
    simp [h]
  · intro h
    have hne : (finiteVals samples).isEmpty = false := by
      simpa [List.isEmpty_iff] using h
    have hn : 1 ≤ (finiteVals samples).length := List.length_pos.mpr h
    have hα := pyClamp_mem alpha (1/1000000) (1 - 1/1000000) (by norm_num)
    have h1α : (0 : ℚ) < 1 - pyClamp alpha (1/1000000) (1 - 1/1000000) := by
      have := hα.2
      linarith
    have hx0 : (0 : ℚ) ≤ ((finiteVals samples).length : ℚ) *
        (1 - pyClamp alpha (1/1000000) (1 - 1/1000000)) :=
      mul_nonneg (Nat.cast_nonneg _) h1α.le
    have hfl0 : 0 ≤ ⌊((finiteVals samples).length : ℚ) *
        (1 - pyClamp alpha (1/1000000) (1 - 1/1000000))⌋ := Int.floor_nonneg.mpr hx0
    have hlt : ((finiteVals samples).length : ℚ) *
        (1 - pyClamp alpha (1/1000000) (1 - 1/1000000)) < ((finiteVals samples).length : ℚ) := by
      have hn' : (1 : ℚ) ≤ ((finiteVals samples).length : ℚ) := by exact_mod_cast hn
      nlinarith [hα.1]
    have hfl : ⌊((finiteVals samples).length : ℚ) *
        (1 - pyClamp alpha (1/1000000) (1 - 1/1000000))⌋ < ((finiteVals samples).length : ℤ) :=
      Int.floor_lt.mpr (by exact_mod_cast hlt)
    have hk : max 1 ((⌊((finiteVals samples).length : ℚ) *
        (1 - pyClamp alpha (1/1000000) (1 - 1/1000000))⌋).toNat + 1) ≤
        (finiteVals samples).length := by omega
    have htake : ((sortDesc (finiteVals samples)).take
        (max 1 ((⌊((finiteVals samples).length : ℚ) *
          (1 - pyClamp alpha (1/1000000) (1 - 1/1000000))⌋).toNat + 1))).length =
        max 1 ((⌊((finiteVals samples).length : ℚ) *
          (1 - pyClamp alpha (1/1000000) (1 - 1/1000000))⌋).toNat + 1) := by
      rw [List.length_take, sortDesc_length]
      omega
    unfold compute_qcvar
    dsimp only
    rw [hne]
    simp only [Bool.false_eq_true, if_false, sortDesc_length, htake]

theorem compute_qcvar_spec_witness :
    finiteVals [PyFloat.fin 1, PyFloat.nan] ≠ [] ∧
    compute_qcvar [PyFloat.fin 1, PyFloat.nan] (PyFloat.fin (95/100)) = 1 := by
  have h := (compute_qcvar_spec [PyFloat.fin 1, PyFloat.nan] (PyFloat.fin (95/100))).2.1
    (by simp [finiteVals])
  have hfv : finiteVals [PyFloat.fin 1, PyFloat.nan] = [1] := rfl
  refine ⟨by simp [hfv], ?_⟩
  rw [h, hfv]
  norm_num [sortDesc, List.insertionSort, List.orderedInsert, pyClamp, clampQ]

/-! ### C10: stored cvar entries and derived QCVaR stay in the unit interval -/

theorem finiteVals_map_fin (l : List ℚ) : finiteVals (l.map PyFloat.fin) = l := by
  induction l with
  | nil => rfl
  | cons x xs ih =>
    show x :: finiteVals (xs.map PyFloat.fin) = x :: xs
    rw [ih]

theorem compute_qcvar_bounds (l : List ℚ) (alpha : PyFloat)
    (h : ∀ x ∈ l, 0 ≤ x ∧ x ≤ 1) :
    0 ≤ compute_qcvar (l.map PyFloat.fin) alpha ∧ compute_qcvar (l.map PyFloat.fin) alpha ≤ 1 := by
  unfold compute_qcvar
  dsimp only
  rw [finiteVals_map_fin]
  cases hl : l.isEmpty with
  | true => simp
  | false =>
    simp only [Bool.false_eq_true, if_false]
    have hne : l ≠ [] := by
      intro e
      rw [e] at hl
      simp at hl
    have hlen : 1 ≤ l.length := List.length_pos.mpr hne
    have hpos : 0 < ((sortDesc l).take (max 1 ((⌊((sortDesc l).length : ℚ) *
        (1 - pyClamp alpha (1/1000000) (1 - 1/1000000))⌋).toNat + 1))).length := by
      rw [List.length_take, sortDesc_length]
      omega
    have hmem : ∀ x ∈ (sortDesc l).take (max 1 ((⌊((sortDesc l).length : ℚ) *
        (1 - pyClamp alpha (1/1000000) (1 - 1/1000000))⌋).toNat + 1)), 0 ≤ x ∧ x ≤ 1 :=
      fun x hx => h x (mem_of_mem_take_sortDesc hx)
    constructor
    · exact div_nonneg (List.sum_nonneg fun x hx => (hmem x hx).1) (by positivity)
    · rw [div_le_one (by exact_mod_cast hpos)]
      calc ((sortDesc l).take _).sum
          ≤ ((sortDesc l).take _).length • (1 : ℚ) :=
            List.sum_le_card_nsmul _ _ fun x hx => (hmem x hx).2
        _ = _ := by simp

theorem cvar_history_mem_unit {v : OmegaValidator} (hv : Reachable v) :
    ∀ x ∈ v.cvar_history, 0 ≤ x ∧ x ≤ 1 := by
  induction hv with
  | init => simp [OmegaValidator.init]
  | validate hv psi theta cvar w ih =>
    intro x hx
    simp only [OmegaValidator.validate_system, OmegaValidator.trim_history, trimFront] at hx
    have hx' := List.drop_subset _ _ hx
    rcases List.mem_append.mp hx' with hx'' | hx''
    · exact ih x hx''
    · rcases List.mem_singleton.mp hx'' with rfl
      exact pyClamp_mem cvar 0 1 (by norm_num)
  | reset hv ih => simp [OmegaValidator.reset]

theorem qcvar_history_bounds {v : OmegaValidator}
    (h : ∀ x ∈ v.cvar_history, 0 ≤ x ∧ x ≤ 1) :
    0 ≤ v.qcvar_history ∧ v.qcvar_history ≤ 1 :=
  compute_qcvar_bounds v.cvar_history (.fin v.qcvar_alpha) h

/-- C10: in every reachable validator state all stored cvar-history entries lie
in `[0, 1]` (the cvar is clamped before storage), and therefore the QCVaR
reported by `validate_system`, `get_system_health` and
`get_validation_summary` always lies in `[0, 1]`. -/
theorem validator_qcvar_mem_unit :
    (∀ v : OmegaValidator, Reachable v → ∀ x ∈ v.cvar_history, 0 ≤ x ∧ x ≤ 1) ∧
    (∀ v : OmegaValidator, Reachable v →
      ∀ (psi theta cvar : PyFloat) (weights : Option OmegaWeights),
        0 ≤ (v.validate_system psi theta cvar weights).1.qcvar ∧
        (v.validate_system psi theta cvar weights).1.qcvar ≤ 1) ∧
    (∀ v : OmegaValidator, Reachable v →
      0 ≤ v.get_system_health.qcvar ∧ v.get_system_health.qcvar ≤ 1) ∧
    (∀ v : OmegaValidator, Reachable v →
      0 ≤ v.get_validation_summary.qcvar ∧ v.get_validation_summary.qcvar ≤ 1) := by
  refine ⟨fun v hv => cvar_history_mem_unit hv, ?_, ?_, ?_⟩
  · intro v hv psi theta cvar weights
    have hpost : (v.validate_system psi theta cvar weights).1.qcvar =
        (v.validate_system psi theta cvar weights).2.qcvar_history := rfl
    rw [hpost]
    exact qcvar_history_bounds (cvar_history_mem_unit (Reachable.validate hv psi theta cvar weights))
  · intro v hv
    have hq : v.get_system_health.qcvar =
        (if v.cvar_history.isEmpty then 0 else v.qcvar_history) := rfl
    rw [hq]
    split
    · norm_num
    · exact qcvar_history_bounds (cvar_history_mem_unit hv)
  · intro v hv
    have hq : v.get_validation_summary.qcvar =
        (if v.cvar_history.isEmpty then 0 else v.qcvar_history) := rfl
    rw [hq]
    split
    · norm_num
    · exact qcvar_history_bounds (cvar_history_mem_unit hv)

theorem validator_qcvar_mem_unit_witness :
    0 ≤ (OmegaValidator.init (.fin (9/10)) (.fin (1/10)) (.fin (9/10)) 100 5).get_system_health.qcvar ∧
    (OmegaValidator.init (.fin (9/10)) (.fin (1/10)) (.fin (9/10)) 100 5).get_system_health.qcvar ≤ 1 :=
  validator_qcvar_mem_unit.2.2.1 _ (Reachable.init (.fin (9/10)) (.fin (1/10)) (.fin (9/10)) 100 5)

/-! ### C1: `get_system_health` fields and the effect of `reset` -/

/-- C1: for every validator state with the constructor-guaranteed
`min_samples ≥ 1`, `get_system_health` reports the most recently recorded
omega (`0.0` when the history is empty), the QCVaR of the current cvar
history, the history length as `sample_count`, and a `production_ready` equal
to the governance-barrier verdict on `(latest_omega, qcvar)` forced to
`false` whenever `sample_count < min_samples`; and right after `reset()` it
reports `sample_count = 0` and `production_ready = false`. -/
theorem get_system_health_spec (v : OmegaValidator) (hmin : 1 ≤ v.min_samples) :
    v.get_system_health.latest_omega = v.omega_history.getLast?.getD 0 ∧
    v.get_system_health.qcvar =
      compute_qcvar (v.cvar_history.map PyFloat.fin) (PyFloat.fin v.qcvar_alpha) ∧
    v.get_system_health.sample_count = v.history.length ∧
    v.get_system_health.production_ready =
      (decide (v.min_samples ≤ v.history.length) &&
        (validate_governance_barrier (.fin v.get_system_health.latest_omega)
          (.fin v.get_system_health.qcvar) (.fin v.omega_threshold)
          (.fin v.qcvar_limit)).production_ready) ∧
    v.reset.get_system_health.sample_count = 0 ∧
    v.reset.get_system_health.production_ready = false := by
  refine ⟨rfl, ?_, rfl, ?_, rfl, ?_⟩
  · have hq : v.get_system_health.qcvar =
        (if v.cvar_history.isEmpty then 0 else v.qcvar_history) := rfl
    rw [hq, OmegaValidator.qcvar_history]
    cases v.cvar_history with
    | nil => rfl
    | cons a as => rfl
  · by_cases hms : v.min_samples ≤ v.history.length
    · simp [OmegaValidator.get_system_health, hms]
    · simp [OmegaValidator.get_system_health, hms]
  · have h0 : ¬ v.min_samples ≤ 0 := by omega
    simp [OmegaValidator.get_system_health, OmegaValidator.reset, h0]

theorem get_system_health_spec_witness :
    1 ≤ (OmegaValidator.init (.fin (9/10)) (.fin (1/10)) (.fin (9/10)) 100 5).min_samples ∧
    (OmegaValidator.init (.fin (9/10)) (.fin (1/10)) (.fin (9/10)) 100
        5).reset.get_system_health.production_ready = false :=
  ⟨by decide,
    (get_system_health_spec (OmegaValidator.init (.fin (9/10)) (.fin (1/10)) (.fin (9/10)) 100 5)
      (by decide)).2.2.2.2.2⟩

/-! ### C2: history bound, lock-step lengths, FIFO eviction -/

theorem length_trimFront (l : List α) (m : ℕ) :
    (trimFront l m).length = l.length - (l.length - m) := by
  simp [trimFront]

/-- C2: in every reachable validator state the three history sequences have
equal lengths, never exceeding `max_history`; and a validator constructed with
`max_history = 2`, after exactly three `validate_system` calls, holds exactly
the records of the second and third calls, in order. -/
theorem validator_history_spec :
    (∀ v : OmegaValidator, Reachable v →
      v.history.length = v.omega_history.length ∧
      v.history.length = v.cvar_history.length ∧
      v.history.length ≤ v.max_history) ∧
    (∀ (ot ql qa : PyFloat) (ms : ℤ)
      (psi1 theta1 cvar1 psi2 theta2 cvar2 psi3 theta3 cvar3 : PyFloat)
      (w1 w2 w3 : Option OmegaWeights),
      ((((OmegaValidator.init ot ql qa 2 ms).validate_system psi1 theta1 cvar1
          w1).2.validate_system psi2 theta2 cvar2
          w2).2.validate_system psi3 theta3 cvar3
          w3).2.get_validation_summary.history =
        [evalRecordOf psi2 theta2 cvar2 w2, evalRecordOf psi3 theta3 cvar3 w3]) := by
  constructor
  · intro v hv
    induction hv with
    | init => simp [OmegaValidator.init]
    | validate hv psi theta cvar w ih =>
      simp only [OmegaValidator.validate_system, OmegaValidator.trim_history,
        length_trimFront, List.length_append, List.length_cons, List.length_nil]
      omega
    | reset hv ih => simp [OmegaValidator.reset]
  · intro ot ql qa ms psi1 theta1 cvar1 psi2 theta2 cvar2 psi3 theta3 cvar3 w1 w2 w3
    rfl

theorem validator_history_spec_witness :
    (OmegaValidator.init (.fin (9/10)) (.fin (1/10)) (.fin (9/10)) 100 5).history.length =
      (OmegaValidator.init (.fin (9/10)) (.fin (1/10)) (.fin (9/10)) 100 5).omega_history.length ∧
    (OmegaValidator.init (.fin (9/10)) (.fin (1/10)) (.fin (9/10)) 100 5).history.length =
      (OmegaValidator.init (.fin (9/10)) (.fin (1/10)) (.fin (9/10)) 100 5).cvar_history.length ∧
    (OmegaValidator.init (.fin (9/10)) (.fin (1/10)) (.fin (9/10)) 100 5).history.length ≤
      (OmegaValidator.init (.fin (9/10)) (.fin (1/10)) (.fin (9/10)) 100 5).max_history :=
  validator_history_spec.1 _ (Reachable.init (.fin (9/10)) (.fin (1/10)) (.fin (9/10)) 100 5)

end MatVerse
